import Mathlib

/-!
Verification of the VNet SSH subsystem (lib/vnet): the SSH info resolvers
(local and remote providers), the per-username SSH client config cache with
single-flight issuance, the outbound SSH dial retry logic, and the TCP
connection handler's resource management.

Go functions are shallowly embedded as Lean functions; the concurrent
`userSSHConfig` path (sync.Map + singleflight.Group) is embedded as a
deterministic step machine over an explicit scheduler, one atomic step per
synchronized operation of the source.
-/

namespace VnetSSH

/-! ## Errors

Go errors are modelled as an inductive type.  `trace.Wrap(err, msg)` becomes
`Err.wrap msg err`; `trace.Wrap(err)` with no message only attaches a stack
trace and is identity-like for `errors.Is`, so call sites that use it are
modelled as returning the error unchanged (noted at each site).  The two
sentinels of lib/vnet used here are `errNoTCPHandler` and `errNoMatch`.
-/

/-- Model of a Go error value flowing through the vnet SSH code.
`noTCPHandler` and `noMatch` are the two package sentinels, `external` is an
arbitrary error produced by a collaborator (client application, network,
provider), and `wrap msg e` is `trace.Wrap(e, msg)`. -/
inductive Err where
  | noTCPHandler : Err
  | noMatch : Err
  | external : String → Err
  | wrap : String → Err → Err
deriving DecidableEq, Repr

/-- Model of Go `errors.Is(e, target)` for this error model: identity, or
identity of any error in the wrap chain. -/
def errorsIs : Err → Err → Bool
  | .wrap _ inner, target => (Err.wrap "" inner == Err.wrap "" target) || errorsIs inner target
  | e, target => e == target

/-- Model of Go `err.Error()`: the rendered message text.  `trace.Wrap`
prefixes its message to the wrapped error's text. -/
def errText : Err → String
  | .noTCPHandler => "no handler for address"
  | .noMatch => "no match"
  | .external m => m
  | .wrap m e => m ++ ": " ++ errText e

/-! ## String helpers

`stripSSHSuffix` is translated from src/lib/vnet/local_ssh_provider.go.
`fullyQualify` and `isDescendantSubdomain` are declared in this repository
outside the sampled files (only their callers are in src/), so they are
modelled from the spec. -/

/-- Model of Go `strings.HasSuffix`, computed on the character level so that
a proof checker can evaluate it. -/
def hasSuffix (s suffix : String) : Bool :=
  suffix.data.isSuffixOf s.data

/-- Model of Go `strings.TrimSuffix(s, suffix)`: removes one trailing copy of
`suffix` when present, otherwise returns `s` unchanged. -/
def trimSuffix (s suffix : String) : String :=
  if hasSuffix s suffix then
    String.mk (s.data.take (s.data.length - suffix.data.length))
  else s

/-- Modelled from the spec: missing helper `fullyQualify` (its definition is
not among the sampled files).  The glossary defines an fqdn as a
fully-qualified domain name; a fully-qualified name carries a trailing dot,
so `fullyQualify` appends one when absent. -/
def fullyQualify (d : String) : String :=
  if hasSuffix d "." then d else d ++ "."

/-- Modelled from the spec: missing helper `isDescendantSubdomain` (only its
callers are among the sampled files).  The spec describes cluster matching as
"strip-suffix matching" of the fqdn against a cluster's qualified domain: an
fqdn matches a zone when it is a strict subdomain, i.e. ends with
`"." ++ fullyQualify zone`. -/
def isDescendantSubdomain (fqdn zone : String) : Bool :=
  hasSuffix fqdn ("." ++ fullyQualify zone)

/-- Translation of `stripSSHSuffix` (src/lib/vnet/local_ssh_provider.go):
trim the fully-qualified root cluster suffix, then the fully-qualified leaf
cluster suffix, then a trailing dot. -/
def stripSSHSuffix (s leafClusterName rootClusterName : String) : String :=
  let stripped := trimSuffix s (fullyQualify rootClusterName)
  let stripped := trimSuffix stripped (fullyQualify leafClusterName)
  trimSuffix stripped "."

/-! ## Data model (vnetv1.SshInfo and collaborators) -/

/-- Model of `vnetv1.SshKey`: profile, leaf cluster qualifier (empty for the
root cluster) and the resolved bare hostname. -/
structure SshKey where
  profile : String
  leafCluster : String
  hostname : String
deriving DecidableEq, Repr

/-- Model of `vnetv1.DialOptions`; the fields are opaque to the resolution
logic, so a tag suffices. -/
structure DialOptions where
  tag : Nat
deriving DecidableEq, Repr

/-- Model of `vnetv1.SshInfo` as built by `resolveSSHInfoForCluster`. -/
structure SshInfo where
  sshKey : SshKey
  cluster : String
  ipv4CidrRange : String
  dialOptions : DialOptions
deriving DecidableEq, Repr

/-- Model of the subset of `ClusterClient` used by the local provider:
`ClusterName()` and `RootClusterName()`. -/
structure ClusterClientM where
  clusterName : String
  rootClusterName : String
deriving DecidableEq, Repr

/-- Environment of `localSSHProvider`: the results of every collaborator call
(`ClientApplication` methods, `getLeafClusters`, the cluster config cache).
Each field maps the Go call's arguments to its result. -/
structure LocalEnv where
  listProfiles : Except Err (List String)
  getCachedClient : String → String → Except Err ClusterClientM
  leafClusters : String → Except Err (List String)
  clusterConfigCIDR : ClusterClientM → Except Err String
  getDialOptions : String → Except Err DialOptions

namespace LocalSSHProvider

/-- Translation of the leaf-cluster loop of `clusterClientForFQDN`
(src/lib/vnet/local_ssh_provider.go lines 92-99): for the first entry of
`allClusters` whose qualified domain the fqdn descends from, return
`GetCachedClient` for it (wrapping a client error, per `trace.Wrap(err)` with
the source's implicit empty message rendered here as a wrap that preserves
`errors.Is` identity of the inner error); with no matching entry, return
`errNoMatch`. -/
def clusterLoop (env : LocalEnv) (profileName fqdn rootClusterName : String) :
    List String → Except Err ClusterClientM
  | [] => .error .noMatch
  | leafClusterName :: rest =>
    if !(isDescendantSubdomain fqdn (leafClusterName ++ "." ++ rootClusterName)) then
      clusterLoop env profileName fqdn rootClusterName rest
    else
      env.getCachedClient profileName leafClusterName

/-- Translation of `clusterClientForFQDN`
(src/lib/vnet/local_ssh_provider.go lines 71-100): failure to get the root
client yields `errNoMatch`; an fqdn descending from the root cluster name
returns the root client immediately; otherwise the leaf clusters are listed
(failure again yielding `errNoMatch`) and scanned, with an empty string
prefixed to represent the root cluster. -/
def clusterClientForFQDN (env : LocalEnv) (profileName fqdn : String) :
    Except Err ClusterClientM :=
  match env.getCachedClient profileName "" with
  | .error _ => .error .noMatch
  | .ok rootClient =>
    let rootClusterName := rootClient.clusterName
    if isDescendantSubdomain fqdn rootClusterName then
      .ok rootClient
    else
      match env.leafClusters profileName with
      | .error _ => .error .noMatch
      | .ok leafClusters =>
        clusterLoop env profileName fqdn rootClusterName ("" :: leafClusters)

/-- Translation of `resolveSSHInfoForCluster`
(src/lib/vnet/local_ssh_provider.go lines 102-130): strip the cluster suffix
to get the target hostname, then assemble `SshInfo` from the cluster config
cache and the profile's dial options, wrapping either failure. -/
def resolveSSHInfoForCluster (env : LocalEnv) (clusterClient : ClusterClientM)
    (profileName leafClusterName fqdn : String) : Except Err SshInfo :=
  let target := stripSSHSuffix fqdn leafClusterName clusterClient.rootClusterName
  match env.clusterConfigCIDR clusterClient with
  | .error e => .error (.wrap "getting cached cluster VNet config for matching SSH node" e)
  | .ok cidr =>
    match env.getDialOptions profileName with
    | .error e => .error (.wrap "getting dial options for matching SSH node" e)
    | .ok dialOpts =>
      .ok { sshKey := { profile := profileName, leafCluster := leafClusterName,
                        hostname := target }
            cluster := clusterClient.clusterName
            ipv4CidrRange := cidr
            dialOptions := dialOpts }

/-- Translation of the profile loop of the local `ResolveSSHInfo`
(src/lib/vnet/local_ssh_provider.go lines 47-68): a profile whose
`clusterClientForFQDN` fails — with `errNoMatch` or any other error (the
latter only logged) — is skipped; the first profile that yields a client is
resolved, with the leaf cluster name taken from the client when its cluster
name is nonempty and differs from its root cluster name. -/
def profileLoop (env : LocalEnv) (fqdn : String) : List String → Except Err SshInfo
  | [] => .error .noTCPHandler
  | profileName :: rest =>
    match clusterClientForFQDN env profileName fqdn with
    | .error _ => profileLoop env fqdn rest
    | .ok clusterClient =>
      let clusterName := clusterClient.clusterName
      let leafClusterName :=
        if clusterName != "" && clusterName != clusterClient.rootClusterName then
          clusterName
        else ""
      resolveSSHInfoForCluster env clusterClient profileName leafClusterName fqdn

/-- Translation of the local `ResolveSSHInfo`
(src/lib/vnet/local_ssh_provider.go lines 42-69): list profiles (wrapping a
listing failure), walk them, and fall back to the unwrapped `errNoTCPHandler`
sentinel when no profile matches. -/
def ResolveSSHInfo (env : LocalEnv) (fqdn : String) : Except Err SshInfo :=
  match env.listProfiles with
  | .error e => .error (.wrap "listing profiles" e)
  | .ok profileNames => profileLoop env fqdn profileNames

end LocalSSHProvider

namespace RemoteSSHProvider

/-- Translation of the remote `ResolveSSHInfo`
(src/lib/vnet/remote_ssh_provider.go lines 40-42): a direct pass-through of
the client application service client's result, adding no wrapping.  The
backing gRPC client is not among the sampled files and is abstracted as the
function `clt`. -/
def ResolveSSHInfo (clt : String → Except Err SshInfo) (fqdn : String) :
    Except Err SshInfo :=
  clt fqdn

end RemoteSSHProvider

/-! ## The per-username config cache (`userSSHConfig` / `retryDialTargetSSH`)

`sshHandler.userSSHConfig` (src/lib/vnet/ssh_resolver.go lines 205-227) uses
a `sync.Map` (`sshClientConfig`) and a `singleflight.Group` (`fg`) keyed by
username.  Concurrent executions are embedded as a step machine: each thread
runs the body of `userSSHConfig` (or the cache invalidation line of
`retryDialTargetSSH`, line 188) one synchronized operation at a time, and a
schedule — a list of thread indices — picks which thread performs its next
atomic operation.  The correspondence of program points to source lines is
given on each constructor.  `Cfg` stands for `*ssh.ClientConfig`; the
provider's `UserSSHConfig` is abstracted as `upstream : Nat → Except Err Cfg`
indexed by the invocation count, so that the number of upstream issuance
calls is observable in the state. -/

/-- Decidable equality of `Except` results, used to compare thread outcomes
in concrete runs. -/
instance {ε α : Type} [DecidableEq ε] [DecidableEq α] : DecidableEq (Except ε α)
  | .ok a, .ok b =>
    if h : a = b then .isTrue (by rw [h]) else .isFalse (by simp [h])
  | .ok _, .error _ => .isFalse (by simp)
  | .error _, .ok _ => .isFalse (by simp)
  | .error a, .error b =>
    if h : a = b then .isTrue (by rw [h]) else .isFalse (by simp [h])

/-- Program counter of one thread executing `userSSHConfig` (or one
invalidation from `retryDialTargetSSH`).  Source points
(src/lib/vnet/ssh_resolver.go):
* `start`: about to run the fast-path `sshClientConfig.Load` (line 206);
* `doEnter`: about to enter `fg.Do(username, ...)` (line 209), becoming the
  leader when no call for this key is in flight, otherwise waiting;
* `doubleCheck`: leader, about to re-read the cache inside the closure
  (line 210);
* `upstreamCall`: leader, about to call `sshProvider.UserSSHConfig`
  (line 213);
* `storeCfg c`: leader, issuance succeeded with `c`, about to
  `sshClientConfig.Store(username, c)` (line 217);
* `completeFlight r`: leader, the closure returned with error part `r`;
  about to publish `r` to all waiters and clear the in-flight slot;
* `waiting`: blocked inside `fg.Do` waiting for the leader's result;
* `afterDo r`: `fg.Do` returned with error part `r`, about to run the
  `if err != nil` check (line 220; `trace.Wrap(err)` there carries no message
  and is modelled as the identity on the error);
* `finalLoad`: about to run the final `sshClientConfig.Load` (line 223);
* `done res`: returned with `res`;
* `panicked`: the final load missed; the `if !ok` branch (lines 224-225) is
  empty, so execution falls through to the type assertion
  `c.(*ssh.ClientConfig)` on a nil interface value, which panics;
* `delStart` / `delDone`: the `sshClientConfig.Delete(username)` of
  `retryDialTargetSSH` (line 188), before and after;
* `inactive`: a slot not running anything. -/
inductive TPc (Cfg : Type) where
  | start : TPc Cfg
  | doEnter : TPc Cfg
  | doubleCheck : TPc Cfg
  | upstreamCall : TPc Cfg
  | storeCfg : Cfg → TPc Cfg
  | completeFlight : Option Err → TPc Cfg
  | waiting : TPc Cfg
  | afterDo : Option Err → TPc Cfg
  | finalLoad : TPc Cfg
  | done : Except Err Cfg → TPc Cfg
  | panicked : TPc Cfg
  | delStart : TPc Cfg
  | delDone : TPc Cfg
  | inactive : TPc Cfg
deriving DecidableEq, Repr

/-- One thread: the username it passed to `userSSHConfig` (or to the
invalidating `Delete`) and its current program point. -/
structure Thread (Cfg : Type) where
  user : String
  pc : TPc Cfg
deriving DecidableEq, Repr

/-- Shared state of one `sshHandler` plus the thread pool: the `sync.Map`
`sshClientConfig` (`cache`), the set of singleflight keys currently in flight
(`flight`), the number of upstream `UserSSHConfig` invocations so far
(`calls`), and the threads. -/
structure MState (Cfg : Type) where
  cache : String → Option Cfg
  flight : String → Bool
  calls : Nat
  threads : Nat → Thread Cfg

/-- Replacement of the program counter of thread `i`. -/
def setPc {Cfg : Type} (s : MState Cfg) (i : Nat) (p : TPc Cfg) : MState Cfg :=
  { s with threads := fun j => if j = i then ⟨(s.threads j).user, p⟩ else s.threads j }

/-- Wake-up applied to every thread when a flight for key `u` completes with
error part `r`: threads waiting inside `fg.Do(u, ...)` receive `r`. -/
def wake {Cfg : Type} (u : String) (r : Option Err) (t : Thread Cfg) : Thread Cfg :=
  if t.user = u then
    match t.pc with
    | .waiting => { t with pc := .afterDo r }
    | _ => t
  else t

/-- One atomic step of thread `i`, following `userSSHConfig`
(src/lib/vnet/ssh_resolver.go lines 205-227), the semantics of
`singleflight.Group.Do` and `sync.Map`, and the `Delete` of
`retryDialTargetSSH` (line 188).  A thread that is blocked, finished,
panicked or inactive leaves the state unchanged. -/
def stepThread {Cfg : Type} (upstream : Nat → Except Err Cfg) (i : Nat)
    (s : MState Cfg) : MState Cfg :=
  let t := s.threads i
  match t.pc with
  | .start =>
    match s.cache t.user with
    | some c => setPc s i (.done (.ok c))
    | none => setPc s i .doEnter
  | .doEnter =>
    if s.flight t.user then setPc s i .waiting
    else
      { setPc s i .doubleCheck with
        flight := fun x => if x = t.user then true else s.flight x }
  | .doubleCheck =>
    match s.cache t.user with
    | some _ => setPc s i (.completeFlight none)
    | none => setPc s i .upstreamCall
  | .upstreamCall =>
    match upstream s.calls with
    | .ok c => { setPc s i (.storeCfg c) with calls := s.calls + 1 }
    | .error e =>
      { setPc s i (.completeFlight (some (.wrap "getting user SSH client config" e))) with
        calls := s.calls + 1 }
  | .storeCfg c =>
    { setPc s i (.completeFlight none) with
      cache := fun x => if x = t.user then some c else s.cache x }
  | .completeFlight r =>
    { s with
      threads := fun j =>
        if j = i then { t with pc := .afterDo r } else wake t.user r (s.threads j)
      flight := fun x => if x = t.user then false else s.flight x }
  | .waiting => s
  | .afterDo (some e) => setPc s i (.done (.error e))
  | .afterDo none => setPc s i .finalLoad
  | .finalLoad =>
    match s.cache t.user with
    | some c => setPc s i (.done (.ok c))
    | none => setPc s i .panicked
  | .done _ => s
  | .panicked => s
  | .delStart =>
    { setPc s i .delDone with
      cache := fun x => if x = t.user then none else s.cache x }
  | .delDone => s
  | .inactive => s

/-- Run of a schedule: the listed threads step in order. -/
def runSched {Cfg : Type} (upstream : Nat → Except Err Cfg) :
    List Nat → MState Cfg → MState Cfg
  | [], s => s
  | i :: rest, s => runSched upstream rest (stepThread upstream i s)

/-- Initial state for `n` concurrent `userSSHConfig` callers for username `u`
over an empty cache: threads `0..n-1` are at `start`, the rest inactive. -/
def initCallers (Cfg : Type) (u : String) (n : Nat) : MState Cfg :=
  { cache := fun _ => none
    flight := fun _ => false
    calls := 0
    threads := fun i => ⟨u, if i < n then .start else .inactive⟩ }

/-! ## Single-flight safety invariant

The invariant `InvC1` holds of every state reachable from `initCallers` when
the first upstream issuance succeeds with `c₀`; it pins down the leader
discipline of `fg.Do`, the monotone cache, and the at-most-one upstream call.
-/

/-- Leader predicate: program points held only by the thread currently
executing the singleflight closure for its key. -/
def isLeader {Cfg : Type} : TPc Cfg → Bool
  | .doubleCheck => true
  | .upstreamCall => true
  | .storeCfg _ => true
  | .completeFlight _ => true
  | _ => false

/-- Finished predicate: the thread returned from `userSSHConfig`. -/
def TPc.isDone {Cfg : Type} : TPc Cfg → Bool
  | .done _ => true
  | _ => false

/-- Inductive invariant for `n` concurrent `userSSHConfig` callers for one
username `u` over an initially empty cache, when the first upstream issuance
yields `c₀`. -/
structure InvC1 {Cfg : Type} (u : String) (c₀ : Cfg) (s : MState Cfg) : Prop where
  users : ∀ i, (s.threads i).user = u
  noDel : ∀ i, (s.threads i).pc ≠ .delStart ∧ (s.threads i).pc ≠ .delDone
  cacheVal : s.cache u = none ∨ s.cache u = some c₀
  callsLe : s.calls ≤ 1
  leadUniq : ∀ i j, isLeader (s.threads i).pc → isLeader (s.threads j).pc → i = j
  flightIff : s.flight u = true ↔ ∃ i, isLeader (s.threads i).pc
  upCall : ∀ i, (s.threads i).pc = .upstreamCall → s.calls = 0 ∧ s.cache u = none
  storeInv : ∀ i c, (s.threads i).pc = .storeCfg c → c = c₀ ∧ s.cache u = none ∧ s.calls = 1
  flightRes : ∀ i r, (s.threads i).pc = .completeFlight r → r = none ∧ s.cache u = some c₀
  afterInv : ∀ i r, (s.threads i).pc = .afterDo r → r = none ∧ s.cache u = some c₀
  finalInv : ∀ i, (s.threads i).pc = .finalLoad → s.cache u = some c₀
  doneInv : ∀ i res, (s.threads i).pc = .done res → res = .ok c₀ ∧ s.cache u = some c₀
  noPanic : ∀ i, (s.threads i).pc ≠ .panicked
  callsZeroIff : s.calls = 0 ↔ (s.cache u = none ∧ ∀ i c, (s.threads i).pc ≠ .storeCfg c)

/-- Per-program-point side condition used by the pure-pc-update preservation
lemma: what must hold of the pre-state for the new program point `p` to keep
`InvC1`. -/
def PcCons {Cfg : Type} (u : String) (c₀ : Cfg) (s : MState Cfg) : TPc Cfg → Prop
  | .done res => res = .ok c₀ ∧ s.cache u = some c₀
  | .finalLoad => s.cache u = some c₀
  | .afterDo r => r = none ∧ s.cache u = some c₀
  | .completeFlight r => r = none ∧ s.cache u = some c₀
  | .upstreamCall => s.calls = 0 ∧ s.cache u = none
  | .storeCfg _ => False
  | .delStart => False
  | .delDone => False
  | .panicked => False
  | _ => True

/-! ## Outbound SSH dial retry (`dialTargetSSH` / `retryDialTargetSSH`)

The retry structure of src/lib/vnet/ssh_resolver.go lines 172-203 is embedded
with the collaborator calls as oracle fields and an explicit count of
`tracessh.NewClientConn` invocations (the outbound SSH handshake attempts).
`userSSHConfig` is abstracted here to its two results (before and after the
cache invalidation); its internals are verified on the step machine above.
Connections and SSH clients are identified by `Nat` tags. -/

/-- Environment of one `dialTargetSSH` execution: results of the two
`userSSHConfig` calls, of the fresh `dialTargetTCP` in the retry, and of each
`tracessh.NewClientConn` handshake as a function of the TCP connection used
and the client config offered. -/
structure DialEnv (Cfg : Type) where
  userSSHConfigInitial : Except Err Cfg
  userSSHConfigFresh : Except Err Cfg
  dialTargetTCPRetry : Except Err Nat
  newClientConn : Nat → Cfg → Except Err Nat

/-- Translation of `retryDialTargetSSH` (src/lib/vnet/ssh_resolver.go lines
187-203) with an attempt count: delete the cached entry (its cache effect is
the `delStart` step of the machine above), get a fresh config, dial a fresh
TCP connection (tagged `conn`), and attempt the SSH handshake once, wrapping
each failure.  The second component counts `NewClientConn` attempts made. -/
def retryDialTargetSSH {Cfg : Type} (env : DialEnv Cfg) : Except Err Nat × Nat :=
  match env.userSSHConfigFresh with
  | .error e => (.error (.wrap "getting fresh SSH client config" e), 0)
  | .ok sshClientConfig =>
    match env.dialTargetTCPRetry with
    | .error e => (.error (.wrap "redialing target with fresh SSH cert" e), 0)
    | .ok tcpConn =>
      match env.newClientConn tcpConn sshClientConfig with
      | .error e => (.error (.wrap "dialing target SSH node with fresh user cert" e), 1)
      | .ok client => (.ok client, 1)

/-- Translation of `dialTargetSSH` (src/lib/vnet/ssh_resolver.go lines
172-185) with an attempt count: get the user config, attempt the handshake on
the given TCP connection, and on failure fall back to `retryDialTargetSSH`
(the `trace.Wrap(err)` there carries no message and is the identity on the
error).  The second component counts `NewClientConn` attempts made. -/
def dialTargetSSH {Cfg : Type} (env : DialEnv Cfg) (tcpConn : Nat) :
    Except Err Nat × Nat :=
  match env.userSSHConfigInitial with
  | .error e => (.error (.wrap "getting user SSH client config" e), 0)
  | .ok sshClientConfig =>
    match env.newClientConn tcpConn sshClientConfig with
    | .ok client => (.ok client, 1)
    | .error _ =>
      match retryDialTargetSSH env with
      | (r, k) => (r, 1 + k)

/-! ## Resource accounting for `handleTCPConnector`

The handler (src/lib/vnet/ssh_resolver.go lines 100-144) is embedded as a
function from an environment of collaborator outcomes to the final resource
state and return value.  One inbound public-key authentication attempt is
modelled (each attempt triggers one `dialTargetSSH`).  Library semantics at
the boundary, from golang.org/x/crypto/ssh (which `tracessh` wraps): a failed
`NewClientConn` or `NewServerConn` handshake closes the `net.Conn` it was
given; `Client.Close` and `ServerConn.Close` close their underlying
connection; `Close` on an already-closed connection returns an error and
never panics. -/

/-- Close accounting for one connection-like resource: whether the attempt
opened it, and how many `Close` calls it received.  The first `Close` moves
the resource to the closed state; any further `Close` is a no-op returning an
error. -/
structure ConnRes where
  opened : Bool
  closeCalls : Nat
deriving DecidableEq, Repr

/-- Environment of one `handleTCPConnector` execution: success of the initial
target TCP dial, of the `connector()` unwrapping, whether the local client
offers a public key, success of each stage of the (retried) outbound SSH
dial, success of the inbound handshake given an accepted key, and the bridge
result. -/
structure ConnEnv where
  dialTargetTCPOk : Bool
  connectorOk : Bool
  authAttempt : Bool
  userSSHConfigInitialOk : Bool
  sshHandshakeInitialOk : Bool
  userSSHConfigFreshOk : Bool
  tcpRedialOk : Bool
  sshHandshakeFreshOk : Bool
  inboundHandshakeOk : Bool
  proxyResult : Option Err

/-- Final resource state and return value of one `handleTCPConnector`
execution: the original target TCP conn, the fresh TCP conn dialed by
`retryDialTargetSSH` (if any), the local conn, the inbound SSH server conn,
and the outbound SSH client. -/
structure ConnOutcome where
  targetTCP : ConnRes
  freshTCP : ConnRes
  localConn : ConnRes
  serverConn : ConnRes
  targetClient : ConnRes
  result : Option Err

/-- Translation of `handleTCPConnector` (src/lib/vnet/ssh_resolver.go lines
100-144) as resource accounting.  Close sites per resource:
* `targetTCP`: closed by a failed initial `NewClientConn` (library), by
  `targetClient.Close()` when the client was established over it, and by the
  deferred `targetTCPConn.Close()` (line 105);
* `freshTCP`: closed by a failed retry `NewClientConn` (library) or by
  `targetClient.Close()` when the client was established over it;
* `localConn`: closed by a failed `NewServerConn` (library) or by
  `serverConn.Close()` (deferred, line 139), plus the deferred
  `localTCPConn.Close()` (line 111);
* `serverConn`: deferred `serverConn.Close()` (line 139);
* `targetClient`: explicit `targetClient.Close()` on inbound handshake
  failure (lines 133-135) or deferred (line 140). -/
def handleTCPConnector (env : ConnEnv) : ConnOutcome :=
  if !env.dialTargetTCPOk then
    { targetTCP := ⟨false, 0⟩, freshTCP := ⟨false, 0⟩, localConn := ⟨false, 0⟩,
      serverConn := ⟨false, 0⟩, targetClient := ⟨false, 0⟩,
      result := some (.wrap "dialing SSH host" (.external "tcp dial failed")) }
  else if !env.connectorOk then
    { targetTCP := ⟨true, 1⟩, freshTCP := ⟨false, 0⟩, localConn := ⟨false, 0⟩,
      serverConn := ⟨false, 0⟩, targetClient := ⟨false, 0⟩,
      result := some (.wrap "unwrapping local VNet TCP conn" (.external "connector failed")) }
  else
    let hs1Attempted := env.authAttempt && env.userSSHConfigInitialOk
    let hs1CloseTarget := hs1Attempted && !env.sshHandshakeInitialOk
    let freshOpened := hs1Attempted && !env.sshHandshakeInitialOk &&
      env.userSSHConfigFreshOk && env.tcpRedialOk
    let hs2CloseFresh := freshOpened && !env.sshHandshakeFreshOk
    let clientViaInitial := hs1Attempted && env.sshHandshakeInitialOk
    let clientViaFresh := freshOpened && env.sshHandshakeFreshOk
    let clientEstablished := clientViaInitial || clientViaFresh
    let serverOk := env.inboundHandshakeOk && clientEstablished
    if !serverOk then
      { targetTCP := ⟨true, (if hs1CloseTarget then 1 else 0) +
          (if clientViaInitial then 1 else 0) + 1⟩
        freshTCP := ⟨freshOpened, (if hs2CloseFresh then 1 else 0) +
          (if clientViaFresh then 1 else 0)⟩
        localConn := ⟨true, 2⟩
        serverConn := ⟨false, 0⟩
        targetClient := ⟨clientEstablished, if clientEstablished then 1 else 0⟩
        result := some (.wrap "accepting incoming SSH conn" (.external "handshake failed")) }
    else
      { targetTCP := ⟨true, (if hs1CloseTarget then 1 else 0) +
          (if clientViaInitial then 1 else 0) + 1⟩
        freshTCP := ⟨freshOpened, if clientViaFresh then 1 else 0⟩
        localConn := ⟨true, 2⟩
        serverConn := ⟨true, 1⟩
        targetClient := ⟨true, 1⟩
        result := env.proxyResult.map (.wrap "proxying SSH connection") }

/-- Closed-state check for one resource at exit: either never opened, or it
received at least one `Close` (reaching the closed state, which it can never
leave — so it is reached exactly once) and at most one redundant further
`Close` (a no-op on a closed conn, not a panic). -/
def ConnRes.closedOnce (r : ConnRes) : Bool :=
  !r.opened || (1 ≤ r.closeCalls && r.closeCalls ≤ 2)

/-! ## The public-key callback -/

/-- Observable effect of one invocation of the inbound SSH server's
`PublicKeyCallback` (src/lib/vnet/ssh_resolver.go lines 119-128): which
username was dialed, the authentication banner sent (if any), the artificial
delay slept, and the returned decision (`some e`: the key is rejected with
error `e`; `none`: the key is accepted). -/
structure CallbackEffect where
  dialedUser : String
  banner : Option String
  delayMs : Nat
  decision : Option Err
deriving DecidableEq, Repr

/-- Translation of the `PublicKeyCallback` closure (src/lib/vnet/ssh_resolver.go
lines 119-128): dial the target as the presented username (`conn.User()`); on
failure wrap the error, send its text as an authentication banner, sleep
500ms and reject the key by returning the error; on success accept by
returning nil.  The offered `key` is never inspected. -/
def publicKeyCallback {Key Client : Type} (dial : String → Except Err Client)
    (connUser : String) (key : Key) : CallbackEffect :=
  match dial connUser with
  | .error e =>
    let werr := Err.wrap "dialing target node" e
    { dialedUser := connUser, banner := some (errText werr), delayMs := 500,
      decision := some werr }
  | .ok _ =>
    { dialedUser := connUser, banner := none, delayMs := 0, decision := none }

/-! ## Concrete environments and schedules used by witnesses -/

/-- Environment with root cluster `example.com` and one leaf cluster `leaf`
(addressed as `leaf.example.com`) under the profile `default`. -/
def leafEnv : LocalEnv :=
  { listProfiles := .ok ["default"]
    getCachedClient := fun profileName leafClusterName =>
      if profileName = "default" && leafClusterName = "" then
        .ok ⟨"example.com", "example.com"⟩
      else if profileName = "default" && leafClusterName = "leaf" then
        .ok ⟨"leaf", "example.com"⟩
      else .error (.external "unknown cluster")
    leafClusters := fun profileName =>
      if profileName = "default" then .ok ["leaf"]
      else .error (.external "unknown profile")
    clusterConfigCIDR := fun _ => .ok "100.64.0.0/10"
    getDialOptions := fun _ => .ok ⟨0⟩ }

/-- Environment with one profile whose cluster clients are unavailable (for
example, the user is logged out). -/
def loggedOutEnv : LocalEnv :=
  { listProfiles := .ok ["default"]
    getCachedClient := fun _ _ => .error (.external "logged out")
    leafClusters := fun _ => .error (.external "logged out")
    clusterConfigCIDR := fun _ => .error (.external "logged out")
    getDialOptions := fun _ => .error (.external "logged out") }

/-- Upstream issuance that fails every call, with distinguishable errors. -/
def failingUpstream : Nat → Except Err Nat :=
  fun n => .error (.external (Nat.repr n))

/-- Initial state for one `userSSHConfig` caller (thread 0) and one
`retryDialTargetSSH` invalidation (thread 1, the `Delete` of line 188) for
the same username over an empty cache. -/
def initWithDeleter (Cfg : Type) (u : String) : MState Cfg :=
  { cache := fun _ => none
    flight := fun _ => false
    calls := 0
    threads := fun i => if i = 0 then ⟨u, .start⟩
      else if i = 1 then ⟨u, .delStart⟩ else ⟨u, .inactive⟩ }

/-- Initial state right before `retryDialTargetSSH` invalidates: the cache
holds the stale config for `u`; thread 0 is the pending `Delete` of
`retryDialTargetSSH` (line 188), thread 1 a subsequent `userSSHConfig`
caller. -/
def initStale (Cfg : Type) (u : String) (stale : Cfg) : MState Cfg :=
  { cache := fun x => if x = u then some stale else none
    flight := fun _ => false
    calls := 0
    threads := fun i => if i = 0 then ⟨u, .delStart⟩
      else if i = 1 then ⟨u, .start⟩ else ⟨u, .inactive⟩ }


/-- Program counter of the updated thread. -/
@[simp] theorem setPc_pc_self {Cfg : Type} (s : MState Cfg) (i : Nat) (p : TPc Cfg) :
    ((setPc s i p).threads i).pc = p := by
  simp [setPc]

/-- Other threads are untouched by `setPc`. -/
@[simp] theorem setPc_other {Cfg : Type} (s : MState Cfg) {i j : Nat} (p : TPc Cfg)
    (hj : j ≠ i) : (setPc s i p).threads j = s.threads j := by
  simp [setPc, hj]

/-- Usernames are untouched by `setPc`. -/
@[simp] theorem setPc_user {Cfg : Type} (s : MState Cfg) (i j : Nat) (p : TPc Cfg) :
    ((setPc s i p).threads j).user = (s.threads j).user := by
  by_cases hj : j = i <;> simp [setPc, hj]

/-- Cache is untouched by `setPc`. -/
@[simp] theorem setPc_cache {Cfg : Type} (s : MState Cfg) (i : Nat) (p : TPc Cfg) :
    (setPc s i p).cache = s.cache := rfl

/-- Flight map is untouched by `setPc`. -/
@[simp] theorem setPc_flight {Cfg : Type} (s : MState Cfg) (i : Nat) (p : TPc Cfg) :
    (setPc s i p).flight = s.flight := rfl

/-- Call count is untouched by `setPc`. -/
@[simp] theorem setPc_calls {Cfg : Type} (s : MState Cfg) (i : Nat) (p : TPc Cfg) :
    (setPc s i p).calls = s.calls := rfl

/-- Preservation of `InvC1` under a pure program-counter update that neither
enters nor leaves `storeCfg` and does not change leadership. -/
theorem InvC1.setPc_pres {Cfg : Type} {u : String} {c₀ : Cfg} {s : MState Cfg}
    {i : Nat} {p : TPc Cfg} (h : InvC1 u c₀ s)
    (hlead : isLeader p = isLeader (s.threads i).pc)
    (hnsOld : ∀ c, (s.threads i).pc ≠ .storeCfg c)
    (hcons : PcCons u c₀ s p) : InvC1 u c₀ (setPc s i p) := by
  have hpc : ∀ j, ((setPc s i p).threads j).pc = (s.threads j).pc ∨
      (((setPc s i p).threads j).pc = p ∧ j = i) := by
    intro j
    by_cases hj : j = i
    · subst hj; exact Or.inr ⟨setPc_pc_self s j p, rfl⟩
    · rw [setPc_other s p hj]; exact Or.inl rfl
  refine ⟨?_, ?_, h.cacheVal, h.callsLe, ?_, ?_, ?_, ?_, ?_, ?_, ?_, ?_, ?_, ?_⟩
  · intro j; rw [setPc_user]; exact h.users j
  · intro j
    rcases hpc j with hs | ⟨hp, _⟩
    · rw [hs]; exact h.noDel j
    · rw [hp]
      cases p <;> simp_all [PcCons]
  · intro j k hj hk
    have hj' : isLeader (s.threads j).pc := by
      rcases hpc j with hs | ⟨hp, hji⟩
      · rwa [hs] at hj
      · rw [hp] at hj; rw [hji, ← hlead]; exact hj
    have hk' : isLeader (s.threads k).pc := by
      rcases hpc k with hs | ⟨hp, hki⟩
      · rwa [hs] at hk
      · rw [hp] at hk; rw [hki, ← hlead]; exact hk
    exact h.leadUniq j k hj' hk'
  · have hEx : (∃ j, isLeader ((setPc s i p).threads j).pc) ↔
        ∃ j, isLeader (s.threads j).pc := by
      constructor
      · rintro ⟨j, hj⟩
        rcases hpc j with hs | ⟨hp, hji⟩
        · exact ⟨j, by rwa [hs] at hj⟩
        · rw [hp] at hj; exact ⟨i, by rw [← hlead]; exact hj⟩
      · rintro ⟨j, hj⟩
        by_cases hj' : j = i
        · exact ⟨i, by rw [setPc_pc_self, hlead]; rwa [hj'] at hj⟩
        · exact ⟨j, by rw [setPc_other s p hj']; exact hj⟩
    rw [setPc_flight, hEx]
    exact h.flightIff
  · intro j hj
    rw [setPc_calls, setPc_cache]
    rcases hpc j with hs | ⟨hp, _⟩
    · rw [hs] at hj; exact h.upCall j hj
    · rw [hp] at hj; rw [hj] at hcons; exact hcons
  · intro j c hj
    rcases hpc j with hs | ⟨hp, _⟩
    · rw [hs] at hj
      refine ⟨(h.storeInv j c hj).1, ?_, ?_⟩
      · rw [setPc_cache]; exact (h.storeInv j c hj).2.1
      · rw [setPc_calls]; exact (h.storeInv j c hj).2.2
    · rw [hp] at hj; rw [hj] at hcons; exact hcons.elim
  · intro j r hj
    rw [setPc_cache]
    rcases hpc j with hs | ⟨hp, _⟩
    · rw [hs] at hj; exact h.flightRes j r hj
    · rw [hp] at hj; rw [hj] at hcons; exact hcons
  · intro j r hj
    rw [setPc_cache]
    rcases hpc j with hs | ⟨hp, _⟩
    · rw [hs] at hj; exact h.afterInv j r hj
    · rw [hp] at hj; rw [hj] at hcons; exact hcons
  · intro j hj
    rw [setPc_cache]
    rcases hpc j with hs | ⟨hp, _⟩
    · rw [hs] at hj; exact h.finalInv j hj
    · rw [hp] at hj; rw [hj] at hcons; exact hcons
  · intro j res hj
    rw [setPc_cache]
    rcases hpc j with hs | ⟨hp, _⟩
    · rw [hs] at hj; exact h.doneInv j res hj
    · rw [hp] at hj; rw [hj] at hcons; exact hcons
  · intro j
    rcases hpc j with hs | ⟨hp, _⟩
    · rw [hs]; exact h.noPanic j
    · rw [hp]
      cases p <;> simp_all [PcCons]
  · have hiff : (∀ j c, ((setPc s i p).threads j).pc ≠ .storeCfg c) ↔
        (∀ j c, (s.threads j).pc ≠ .storeCfg c) := by
      constructor
      · intro hall j c hj
        by_cases hji : j = i
        · exact absurd hj (by rw [hji]; exact hnsOld c)
        · exact hall j c (by rw [setPc_other s p hji]; exact hj)
      · intro hall j c hj
        rcases hpc j with hs | ⟨hp, _⟩
        · rw [hs] at hj; exact hall j c hj
        · rw [hp] at hj; rw [hj] at hcons; exact hcons
    rw [setPc_calls, setPc_cache, hiff]
    exact h.callsZeroIff

/-- Preservation of `InvC1` when a thread enters `fg.Do` with no call in
flight and becomes the leader. -/
theorem InvC1.doEnter_pres {Cfg : Type} {u : String} {c₀ : Cfg} {s : MState Cfg}
    {i : Nat} (h : InvC1 u c₀ s) (hpc : (s.threads i).pc = .doEnter)
    (hf : s.flight u = false) :
    InvC1 u c₀ { setPc s i .doubleCheck with
                 flight := fun x => if x = u then true else s.flight x } := by
  have hNoLead : ∀ j, ¬ isLeader (s.threads j).pc := by
    intro j hj
    have := h.flightIff.mpr ⟨j, hj⟩
    rw [hf] at this
    exact Bool.false_ne_true this
  have hNoStore : ∀ j c, (s.threads j).pc ≠ .storeCfg c := by
    intro j c hj
    exact hNoLead j (by rw [hj]; rfl)
  refine ⟨?_, ?_, h.cacheVal, h.callsLe, ?_, ?_, ?_, ?_, ?_, ?_, ?_, ?_, ?_, ?_⟩ <;>
    dsimp only [setPc]
  · intro j
    by_cases hj : j = i
    · subst hj; simp [h.users j]
    · rw [if_neg hj]; exact h.users j
  · intro j
    by_cases hj : j = i
    · subst hj; simp
    · rw [if_neg hj]; exact h.noDel j
  · intro j k hj hk
    by_cases hjx : j = i
    · by_cases hkx : k = i
      · rw [hjx, hkx]
      · rw [if_neg hkx] at hk
        exact absurd hk (hNoLead k)
    · rw [if_neg hjx] at hj
      exact absurd hj (hNoLead j)
  · constructor
    · intro _
      exact ⟨i, by simp [isLeader]⟩
    · intro _
      simp
  · intro j hj
    by_cases hjx : j = i
    · subst hjx; simp at hj
    · rw [if_neg hjx] at hj
      exact absurd (show isLeader (s.threads j).pc from by rw [hj]; rfl) (hNoLead j)
  · intro j c hj
    by_cases hjx : j = i
    · subst hjx; simp at hj
    · rw [if_neg hjx] at hj
      exact absurd hj (hNoStore j c)
  · intro j r hj
    by_cases hjx : j = i
    · subst hjx; simp at hj
    · rw [if_neg hjx] at hj
      exact absurd (show isLeader (s.threads j).pc from by rw [hj]; rfl) (hNoLead j)
  · intro j r hj
    by_cases hjx : j = i
    · subst hjx; simp at hj
    · rw [if_neg hjx] at hj
      exact h.afterInv j r hj
  · intro j hj
    by_cases hjx : j = i
    · subst hjx; simp at hj
    · rw [if_neg hjx] at hj
      exact h.finalInv j hj
  · intro j res hj
    by_cases hjx : j = i
    · subst hjx; simp at hj
    · rw [if_neg hjx] at hj
      exact h.doneInv j res hj
  · intro j
    by_cases hjx : j = i
    · subst hjx; simp
    · rw [if_neg hjx]
      exact h.noPanic j
  · refine h.callsZeroIff.trans (and_congr_right fun _ => ?_)
    constructor
    · intro hall j c
      by_cases hjx : j = i
      · subst hjx; simp
      · rw [if_neg hjx]
        exact hall j c
    · intro _ j c hj
      exact hNoStore j c hj

/-- Usernames are untouched by `wake`. -/
theorem wake_user {Cfg : Type} (u : String) (r : Option Err) (t : Thread Cfg) :
    (wake u r t).user = t.user := by
  unfold wake
  by_cases hu : t.user = u
  · rw [if_pos hu]
    cases t.pc <;> rfl
  · rw [if_neg hu]

/-- Program counters after `wake`: unchanged, or a waiting thread for key `u`
moved to `afterDo r`. -/
theorem wake_pc {Cfg : Type} (u : String) (r : Option Err) (t : Thread Cfg) :
    (wake u r t).pc = t.pc ∨ (t.pc = .waiting ∧ (wake u r t).pc = .afterDo r) := by
  unfold wake
  by_cases hu : t.user = u
  · rw [if_pos hu]
    cases hp : t.pc <;> simp [hp]
  · rw [if_neg hu]
    exact Or.inl rfl

/-- Preservation of `InvC1` when the leader performs the upstream issuance
call, which succeeds with `c₀`. -/
theorem InvC1.upstreamCall_pres {Cfg : Type} {u : String} {c₀ : Cfg} {s : MState Cfg}
    {i : Nat} (h : InvC1 u c₀ s) (hpc : (s.threads i).pc = .upstreamCall) :
    InvC1 u c₀ { setPc s i (.storeCfg c₀) with calls := s.calls + 1 } := by
  have hup := h.upCall i hpc
  have hLead : isLeader (s.threads i).pc := by rw [hpc]; rfl
  have hOnly : ∀ j, isLeader (s.threads j).pc → j = i := fun j hj => h.leadUniq j i hj hLead
  refine ⟨?_, ?_, h.cacheVal, ?_, ?_, ?_, ?_, ?_, ?_, ?_, ?_, ?_, ?_, ?_⟩ <;>
    dsimp only [setPc]
  · intro j
    by_cases hj : j = i
    · subst hj; simp [h.users j]
    · rw [if_neg hj]; exact h.users j
  · intro j
    by_cases hj : j = i
    · subst hj; simp
    · rw [if_neg hj]; exact h.noDel j
  · rw [hup.1]
  · intro j k hj hk
    by_cases hjx : j = i
    · by_cases hkx : k = i
      · rw [hjx, hkx]
      · rw [if_neg hkx] at hk
        exact absurd (hOnly k hk) hkx
    · rw [if_neg hjx] at hj
      exact absurd (hOnly j hj) hjx
  · constructor
    · intro _
      exact ⟨i, by simp [isLeader]⟩
    · intro _
      exact h.flightIff.mpr ⟨i, hLead⟩
  · intro j hj
    by_cases hjx : j = i
    · subst hjx; simp at hj
    · rw [if_neg hjx] at hj
      exact absurd (hOnly j (by rw [hj]; rfl)) hjx
  · intro j c hj
    by_cases hjx : j = i
    · subst hjx
      simp only [if_pos] at hj
      have hc : c₀ = c := by
        have := congrArg (fun p => match p with | TPc.storeCfg x => x | _ => c₀) hj
        simpa using this
      refine ⟨hc.symm, hup.2, ?_⟩
      rw [hup.1]
    · rw [if_neg hjx] at hj
      exact absurd (hOnly j (by rw [hj]; rfl)) hjx
  · intro j r hj
    by_cases hjx : j = i
    · subst hjx; simp at hj
    · rw [if_neg hjx] at hj
      exact absurd (hOnly j (by rw [hj]; rfl)) hjx
  · intro j r hj
    by_cases hjx : j = i
    · subst hjx; simp at hj
    · rw [if_neg hjx] at hj
      have h1 := (h.afterInv j r hj).2
      rw [hup.2] at h1
      cases h1
  · intro j hj
    by_cases hjx : j = i
    · subst hjx; simp at hj
    · rw [if_neg hjx] at hj
      have h1 := h.finalInv j hj
      rw [hup.2] at h1
      cases h1
  · intro j res hj
    by_cases hjx : j = i
    · subst hjx; simp at hj
    · rw [if_neg hjx] at hj
      have h1 := (h.doneInv j res hj).2
      rw [hup.2] at h1
      cases h1
  · intro j
    by_cases hjx : j = i
    · subst hjx; simp
    · rw [if_neg hjx]
      exact h.noPanic j
  · constructor
    · intro hc
      exact absurd hc (Nat.succ_ne_zero s.calls)
    · rintro ⟨-, hall⟩
      exact absurd (show ((fun j => if j = i then
          (⟨(s.threads j).user, TPc.storeCfg c₀⟩ : Thread Cfg) else s.threads j) i).pc
            = TPc.storeCfg c₀ by simp) (hall i c₀)

/-- Preservation of `InvC1` when the leader stores the issued config into the
`sync.Map`. -/
theorem InvC1.storeCfg_pres {Cfg : Type} {u : String} {c₀ : Cfg} {s : MState Cfg}
    {i : Nat} {c : Cfg} (h : InvC1 u c₀ s) (hpc : (s.threads i).pc = .storeCfg c) :
    InvC1 u c₀ { setPc s i (.completeFlight none) with
                 cache := fun x => if x = u then some c else s.cache x } := by
  have hst := h.storeInv i c hpc
  have hLead : isLeader (s.threads i).pc := by rw [hpc]; rfl
  have hOnly : ∀ j, isLeader (s.threads j).pc → j = i := fun j hj => h.leadUniq j i hj hLead
  have hcache : (fun x => if x = u then some c else s.cache x) u = some c₀ := by
    simp [hst.1]
  refine ⟨?_, ?_, ?_, h.callsLe, ?_, ?_, ?_, ?_, ?_, ?_, ?_, ?_, ?_, ?_⟩ <;>
    dsimp only [setPc]
  · intro j
    by_cases hj : j = i
    · subst hj; simp [h.users j]
    · rw [if_neg hj]; exact h.users j
  · intro j
    by_cases hj : j = i
    · subst hj; simp
    · rw [if_neg hj]; exact h.noDel j
  · exact Or.inr hcache
  · intro j k hj hk
    by_cases hjx : j = i
    · by_cases hkx : k = i
      · rw [hjx, hkx]
      · rw [if_neg hkx] at hk
        exact absurd (hOnly k hk) hkx
    · rw [if_neg hjx] at hj
      exact absurd (hOnly j hj) hjx
  · constructor
    · intro _
      exact ⟨i, by simp [isLeader]⟩
    · intro _
      exact h.flightIff.mpr ⟨i, hLead⟩
  · intro j hj
    by_cases hjx : j = i
    · subst hjx; simp at hj
    · rw [if_neg hjx] at hj
      exact absurd (hOnly j (by rw [hj]; rfl)) hjx
  · intro j c' hj
    by_cases hjx : j = i
    · subst hjx; simp at hj
    · rw [if_neg hjx] at hj
      exact absurd (hOnly j (by rw [hj]; rfl)) hjx
  · intro j r hj
    by_cases hjx : j = i
    · subst hjx
      simp only [if_pos] at hj
      have hr : r = none := by
        have := congrArg (fun p => match p with | TPc.completeFlight x => x | _ => r) hj
        simpa using this.symm
      exact ⟨hr, hcache⟩
    · rw [if_neg hjx] at hj
      exact absurd (hOnly j (by rw [hj]; rfl)) hjx
  · intro j r hj
    by_cases hjx : j = i
    · subst hjx; simp at hj
    · rw [if_neg hjx] at hj
      have h1 := (h.afterInv j r hj).2
      rw [hst.2.1] at h1
      cases h1
  · intro j hj
    by_cases hjx : j = i
    · subst hjx; simp at hj
    · rw [if_neg hjx] at hj
      have h1 := h.finalInv j hj
      rw [hst.2.1] at h1
      cases h1
  · intro j res hj
    by_cases hjx : j = i
    · subst hjx; simp at hj
    · rw [if_neg hjx] at hj
      have h1 := (h.doneInv j res hj).2
      rw [hst.2.1] at h1
      cases h1
  · intro j
    by_cases hjx : j = i
    · subst hjx; simp
    · rw [if_neg hjx]
      exact h.noPanic j
  · constructor
    · intro hc
      rw [hst.2.2] at hc
      exact absurd hc one_ne_zero
    · rintro ⟨hnone, -⟩
      simp at hnone

/-- Preservation of `InvC1` when the leader's singleflight closure returns:
the result is published to all waiters and the in-flight slot is cleared. -/
theorem InvC1.completeFlight_pres {Cfg : Type} {u : String} {c₀ : Cfg} {s : MState Cfg}
    {i : Nat} {r : Option Err} (h : InvC1 u c₀ s)
    (hpc : (s.threads i).pc = .completeFlight r) :
    InvC1 u c₀ { s with
                 threads := fun j => if j = i then ⟨(s.threads i).user, .afterDo r⟩
                   else wake u r (s.threads j)
                 flight := fun x => if x = u then false else s.flight x } := by
  have hfr := h.flightRes i r hpc
  have hLead : isLeader (s.threads i).pc := by rw [hpc]; rfl
  have hOnly : ∀ j, isLeader (s.threads j).pc → j = i := fun j hj => h.leadUniq j i hj hLead
  have hNoPostLead : ∀ j, ¬ isLeader ((fun j => if j = i then
      (⟨(s.threads i).user, TPc.afterDo r⟩ : Thread Cfg)
        else wake u r (s.threads j)) j).pc := by
    intro j hj
    dsimp only at hj
    by_cases hjx : j = i
    · rw [if_pos hjx] at hj
      cases hj
    · rw [if_neg hjx] at hj
      rcases wake_pc u r (s.threads j) with hsame | ⟨hwait, hafter⟩
      · rw [hsame] at hj
        exact absurd (hOnly j hj) hjx
      · rw [hafter] at hj
        cases hj
  refine ⟨?_, ?_, h.cacheVal, h.callsLe, ?_, ?_, ?_, ?_, ?_, ?_, ?_, ?_, ?_, ?_⟩ <;>
    dsimp only
  · intro j
    by_cases hj : j = i
    · subst hj; simp [h.users j]
    · simp only [if_neg hj]
      rw [wake_user]
      exact h.users j
  · intro j
    by_cases hj : j = i
    · subst hj; simp
    · simp only [if_neg hj]
      rcases wake_pc u r (s.threads j) with hsame | ⟨hwait, hafter⟩
      · rw [hsame]; exact h.noDel j
      · rw [hafter]
        exact ⟨(by intro hx; cases hx), (by intro hx; cases hx)⟩
  · intro j k hj hk
    exact absurd hj (hNoPostLead j)
  · constructor
    · intro hfl
      simp at hfl
    · rintro ⟨j, hj⟩
      exact absurd hj (hNoPostLead j)
  · intro j hj
    by_cases hjx : j = i
    · subst hjx; simp at hj
    · rw [if_neg hjx] at hj
      rcases wake_pc u r (s.threads j) with hsame | ⟨hwait, hafter⟩
      · rw [hsame] at hj
        exact absurd (hOnly j (by rw [hj]; rfl)) hjx
      · rw [hafter] at hj
        cases hj
  · intro j c hj
    by_cases hjx : j = i
    · subst hjx; simp at hj
    · rw [if_neg hjx] at hj
      rcases wake_pc u r (s.threads j) with hsame | ⟨hwait, hafter⟩
      · rw [hsame] at hj
        exact absurd (hOnly j (by rw [hj]; rfl)) hjx
      · rw [hafter] at hj
        cases hj
  · intro j r' hj
    by_cases hjx : j = i
    · subst hjx; simp at hj
    · rw [if_neg hjx] at hj
      rcases wake_pc u r (s.threads j) with hsame | ⟨hwait, hafter⟩
      · rw [hsame] at hj
        exact absurd (hOnly j (by rw [hj]; rfl)) hjx
      · rw [hafter] at hj
        cases hj
  · intro j r' hj
    by_cases hjx : j = i
    · subst hjx
      simp only [if_pos] at hj
      have hr : r' = r := by
        have := congrArg (fun p => match p with | TPc.afterDo x => x | _ => r') hj
        simpa using this.symm
      exact ⟨hr.trans hfr.1, hfr.2⟩
    · rw [if_neg hjx] at hj
      rcases wake_pc u r (s.threads j) with hsame | ⟨hwait, hafter⟩
      · rw [hsame] at hj
        exact h.afterInv j r' hj
      · rw [hafter] at hj
        have hr : r' = r := by
          have := congrArg (fun p => match p with | TPc.afterDo x => x | _ => r') hj
          simpa using this.symm
        exact ⟨hr.trans hfr.1, hfr.2⟩
  · intro j hj
    by_cases hjx : j = i
    · subst hjx; simp at hj
    · rw [if_neg hjx] at hj
      rcases wake_pc u r (s.threads j) with hsame | ⟨hwait, hafter⟩
      · rw [hsame] at hj
        exact h.finalInv j hj
      · rw [hafter] at hj
        cases hj
  · intro j res hj
    by_cases hjx : j = i
    · subst hjx; simp at hj
    · rw [if_neg hjx] at hj
      rcases wake_pc u r (s.threads j) with hsame | ⟨hwait, hafter⟩
      · rw [hsame] at hj
        exact h.doneInv j res hj
      · rw [hafter] at hj
        cases hj
  · intro j
    by_cases hjx : j = i
    · subst hjx; simp
    · simp only [if_neg hjx]
      rcases wake_pc u r (s.threads j) with hsame | ⟨hwait, hafter⟩
      · rw [hsame]; exact h.noPanic j
      · rw [hafter]
        intro hx; cases hx
  · constructor
    · intro hc
      have h1 := (h.callsZeroIff.mp hc).1
      rw [hfr.2] at h1
      cases h1
    · rintro ⟨hnone, -⟩
      rw [hfr.2] at hnone
      cases hnone

/-- Preservation of `InvC1` under one step of any thread, when the first
upstream issuance succeeds with `c₀`. -/
theorem InvC1.stepPres {Cfg : Type} {u : String} {c₀ : Cfg}
    {upstream : Nat → Except Err Cfg} (H0 : upstream 0 = .ok c₀)
    {s : MState Cfg} (h : InvC1 u c₀ s) (i : Nat) :
    InvC1 u c₀ (stepThread upstream i s) := by
  have hu : (s.threads i).user = u := h.users i
  rcases hpc : (s.threads i).pc with _ | _ | _ | _ | c | r | _ | r | _ | res | _ | _ | _ | _
  · -- start: fast-path load
    rcases hc : s.cache u with _ | c2
    · have hstep : stepThread upstream i s = setPc s i .doEnter := by
        simp only [stepThread, hpc, hu, hc]
      rw [hstep]
      exact h.setPc_pres (by rw [hpc]; rfl) (fun c hx => by rw [hpc] at hx; cases hx) trivial
    · have hc2 : c2 = c₀ := by
        rcases h.cacheVal with h1 | h1
        · rw [hc] at h1; cases h1
        · rw [hc] at h1; exact Option.some.inj h1
      have hstep : stepThread upstream i s = setPc s i (.done (.ok c2)) := by
        simp only [stepThread, hpc, hu, hc]
      rw [hstep]
      exact h.setPc_pres (by rw [hpc]; rfl) (fun c hx => by rw [hpc] at hx; cases hx)
        ⟨by rw [hc2], by rw [hc, hc2]⟩
  · -- doEnter
    by_cases hf : s.flight u = true
    · have hstep : stepThread upstream i s = setPc s i .waiting := by
        simp only [stepThread, hpc, hu, hf, if_true]
      rw [hstep]
      exact h.setPc_pres (by rw [hpc]; rfl) (fun c hx => by rw [hpc] at hx; cases hx) trivial
    · have hf' : s.flight u = false := by
        cases hb : s.flight u
        · rfl
        · exact absurd hb hf
      have hstep : stepThread upstream i s = { setPc s i .doubleCheck with
          flight := fun x => if x = u then true else s.flight x } := by
        simp only [stepThread, hpc, hu, hf', Bool.false_eq_true, if_false]
      rw [hstep]
      exact h.doEnter_pres hpc hf'
  · -- doubleCheck: inner re-read
    rcases hc : s.cache u with _ | c2
    · have hstep : stepThread upstream i s = setPc s i .upstreamCall := by
        simp only [stepThread, hpc, hu, hc]
      rw [hstep]
      refine h.setPc_pres (by rw [hpc]; rfl) (fun c hx => by rw [hpc] at hx; cases hx) ?_
      refine ⟨?_, hc⟩
      refine h.callsZeroIff.mpr ⟨hc, ?_⟩
      intro j c hj
      have hji : j = i := h.leadUniq j i (by rw [hj]; rfl) (by rw [hpc]; rfl)
      rw [hji, hpc] at hj
      cases hj
    · have hc2 : c2 = c₀ := by
        rcases h.cacheVal with h1 | h1
        · rw [hc] at h1; cases h1
        · rw [hc] at h1; exact Option.some.inj h1
      have hstep : stepThread upstream i s = setPc s i (.completeFlight none) := by
        simp only [stepThread, hpc, hu, hc]
      rw [hstep]
      exact h.setPc_pres (by rw [hpc]; rfl) (fun c hx => by rw [hpc] at hx; cases hx)
        ⟨rfl, by rw [hc, hc2]⟩
  · -- upstreamCall: the issuance call, succeeding by H0
    have hcalls : s.calls = 0 := (h.upCall i hpc).1
    have hstep : stepThread upstream i s =
        { setPc s i (.storeCfg c₀) with calls := s.calls + 1 } := by
      simp only [stepThread, hpc, hcalls, H0]
    rw [hstep]
    exact h.upstreamCall_pres hpc
  · -- storeCfg
    have hstep : stepThread upstream i s = { setPc s i (.completeFlight none) with
        cache := fun x => if x = u then some c else s.cache x } := by
      simp only [stepThread, hpc, hu]
    rw [hstep]
    exact h.storeCfg_pres hpc
  · -- completeFlight
    have hstep : stepThread upstream i s = { s with
        threads := fun j => if j = i then ⟨(s.threads i).user, .afterDo r⟩
          else wake u r (s.threads j)
        flight := fun x => if x = u then false else s.flight x } := by
      simp only [stepThread, hpc, hu]
    rw [hstep]
    exact h.completeFlight_pres hpc
  · -- waiting: blocked, no state change
    have hstep : stepThread upstream i s = s := by
      simp only [stepThread, hpc]
    rw [hstep]; exact h
  · -- afterDo
    rcases r with _ | e
    · have hstep : stepThread upstream i s = setPc s i .finalLoad := by
        simp only [stepThread, hpc]
      rw [hstep]
      exact h.setPc_pres (by rw [hpc]; rfl) (fun c hx => by rw [hpc] at hx; cases hx)
        (h.afterInv i none hpc).2
    · have h1 := (h.afterInv i (some e) hpc).1
      cases h1
  · -- finalLoad
    have hc := h.finalInv i hpc
    have hstep : stepThread upstream i s = setPc s i (.done (.ok c₀)) := by
      simp only [stepThread, hpc, hu, hc]
    rw [hstep]
    exact h.setPc_pres (by rw [hpc]; rfl) (fun c hx => by rw [hpc] at hx; cases hx)
      ⟨rfl, hc⟩
  · -- done
    have hstep : stepThread upstream i s = s := by
      simp only [stepThread, hpc]
    rw [hstep]; exact h
  · -- panicked
    have hstep : stepThread upstream i s = s := by
      simp only [stepThread, hpc]
    rw [hstep]; exact h
  · -- delStart: excluded by the caller-only invariant
    exact absurd hpc (h.noDel i).1
  · -- delDone
    have hstep : stepThread upstream i s = s := by
      simp only [stepThread, hpc]
    rw [hstep]; exact h
  · -- inactive
    have hstep : stepThread upstream i s = s := by
      simp only [stepThread, hpc]
    rw [hstep]; exact h

/-- Preservation of `InvC1` along a whole schedule. -/
theorem InvC1.runPres {Cfg : Type} {u : String} {c₀ : Cfg}
    {upstream : Nat → Except Err Cfg} (H0 : upstream 0 = .ok c₀)
    (sched : List Nat) {s : MState Cfg} (h : InvC1 u c₀ s) :
    InvC1 u c₀ (runSched upstream sched s) := by
  induction sched generalizing s with
  | nil => exact h
  | cons i rest ih => exact ih (h.stepPres H0 i)

/-- The initial state of `n` concurrent callers satisfies the invariant. -/
theorem InvC1.init {Cfg : Type} (u : String) (c₀ : Cfg) (n : Nat) :
    InvC1 u c₀ (initCallers Cfg u n) := by
  have hpc : ∀ i, ((initCallers Cfg u n).threads i).pc = .start ∨
      ((initCallers Cfg u n).threads i).pc = .inactive := by
    intro i
    by_cases hi : i < n
    · exact Or.inl (by simp [initCallers, hi])
    · exact Or.inr (by simp [initCallers, hi])
  have hNoLead : ∀ i, ¬ isLeader ((initCallers Cfg u n).threads i).pc := by
    intro i hi
    rcases hpc i with hp | hp <;> rw [hp] at hi <;> cases hi
  refine ⟨?_, ?_, Or.inl rfl, by exact Nat.zero_le 1, ?_, ?_, ?_, ?_, ?_, ?_, ?_, ?_, ?_, ?_⟩
  · intro i; rfl
  · intro i
    rcases hpc i with hp | hp <;> rw [hp] <;>
      exact ⟨(by intro hx; cases hx), (by intro hx; cases hx)⟩
  · intro i j hi hj
    exact absurd hi (hNoLead i)
  · constructor
    · intro hx; cases hx
    · rintro ⟨j, hj⟩; exact absurd hj (hNoLead j)
  · intro i hi
    rcases hpc i with hp | hp <;> rw [hp] at hi <;> cases hi
  · intro i c hi
    rcases hpc i with hp | hp <;> rw [hp] at hi <;> cases hi
  · intro i r hi
    rcases hpc i with hp | hp <;> rw [hp] at hi <;> cases hi
  · intro i r hi
    rcases hpc i with hp | hp <;> rw [hp] at hi <;> cases hi
  · intro i hi
    rcases hpc i with hp | hp <;> rw [hp] at hi <;> cases hi
  · intro i res hi
    rcases hpc i with hp | hp <;> rw [hp] at hi <;> cases hi
  · intro i
    rcases hpc i with hp | hp <;> rw [hp] <;> intro hx <;> cases hx
  · constructor
    · intro _
      refine ⟨rfl, ?_⟩
      intro i c hi
      rcases hpc i with hp | hp <;> rw [hp] at hi <;> cases hi
    · intro _; rfl

/-! ## Claim theorems: the resolvers (C3, C4, C10) -/

/-- Finished program points are exactly the `done` states. -/
theorem TPc.isDone_iff {Cfg : Type} (p : TPc Cfg) :
    p.isDone = true ↔ ∃ res, p = .done res := by
  cases p <;> simp [TPc.isDone]

/-- Claim C3 (the code, at the claim's input): with root cluster
`example.com` and a leaf cluster `leaf` addressed as `leaf.example.com`,
resolving the fully-qualified `host.leaf.example.com.` matches the ROOT
cluster, not the leaf: the root-suffix check at the top of
`clusterClientForFQDN` (src/lib/vnet/local_ssh_provider.go line 79) returns
the root client before the leaf loop is ever reached, so the leaf qualifier
stays empty and stripping yields hostname `host.leaf` instead of `host` —
even though the fqdn does descend from the leaf cluster's domain (second
conjunct), so the leaf loop would have matched had it been reached. -/
theorem resolveSSHInfo_leaf_shadowed_by_root :
    LocalSSHProvider.ResolveSSHInfo leafEnv "host.leaf.example.com." =
      .ok { sshKey := { profile := "default", leafCluster := "", hostname := "host.leaf" }
            cluster := "example.com"
            ipv4CidrRange := "100.64.0.0/10"
            dialOptions := ⟨0⟩ } ∧
    isDescendantSubdomain "host.leaf.example.com." ("leaf" ++ "." ++ "example.com") = true := by
  constructor
  · decide
  · decide

/-- Helper: when `clusterClientForFQDN` fails for every profile (with
`errNoMatch` or any other, merely logged, error), the profile loop of the
local `ResolveSSHInfo` falls through to the `errNoTCPHandler` sentinel. -/
theorem profileLoop_all_fail (env : LocalEnv) (fqdn : String) :
    ∀ ps : List String,
      (∀ p ∈ ps, ∃ e, LocalSSHProvider.clusterClientForFQDN env p fqdn = .error e) →
      LocalSSHProvider.profileLoop env fqdn ps = .error .noTCPHandler
  | [], _ => rfl
  | p :: rest, hall => by
    obtain ⟨e, he⟩ := hall p (List.mem_cons_self p rest)
    have ih := profileLoop_all_fail env fqdn rest
      (fun q hq => hall q (List.mem_cons_of_mem p hq))
    simp only [LocalSSHProvider.profileLoop, he]
    exact ih

/-- Claim C4: for an fqdn that matches no profile or cluster (every
profile's `clusterClientForFQDN` fails), the local `ResolveSSHInfo` returns
the `errNoTCPHandler` sentinel value itself — not wrapped — and the remote
`ResolveSSHInfo` passes the sentinel through unchanged, so error-identity
comparison with the sentinel succeeds. -/
theorem resolveSSHInfo_notfound_sentinel_unwrapped :
    (∀ (env : LocalEnv) (fqdn : String) (profiles : List String),
      env.listProfiles = .ok profiles →
      (∀ p ∈ profiles, ∃ e, LocalSSHProvider.clusterClientForFQDN env p fqdn = .error e) →
      LocalSSHProvider.ResolveSSHInfo env fqdn = .error .noTCPHandler) ∧
    (∀ (clt : String → Except Err SshInfo) (fqdn : String),
      clt fqdn = .error .noTCPHandler →
      RemoteSSHProvider.ResolveSSHInfo clt fqdn = .error .noTCPHandler) := by
  constructor
  · intro env fqdn profiles hlist hall
    unfold LocalSSHProvider.ResolveSSHInfo
    rw [hlist]
    exact profileLoop_all_fail env fqdn profiles hall
  · intro clt fqdn h
    exact h

/-- Witness for C4 at a concrete environment: one profile whose cluster
clients are unavailable, and a remote client returning the sentinel. -/
theorem resolveSSHInfo_notfound_sentinel_unwrapped_witness :
    loggedOutEnv.listProfiles = .ok ["default"] ∧
    ((fun _ => .error .noTCPHandler : String → Except Err SshInfo) "host.example.com." =
      .error .noTCPHandler) ∧
    LocalSSHProvider.ResolveSSHInfo loggedOutEnv "host.example.com." = .error .noTCPHandler ∧
    RemoteSSHProvider.ResolveSSHInfo (fun _ => .error .noTCPHandler) "host.example.com." =
      .error .noTCPHandler :=
  ⟨rfl, rfl,
    resolveSSHInfo_notfound_sentinel_unwrapped.1 loggedOutEnv "host.example.com."
      ["default"] rfl (fun p _ => ⟨.noMatch, rfl⟩),
    resolveSSHInfo_notfound_sentinel_unwrapped.2 (fun _ => .error .noTCPHandler)
      "host.example.com." rfl⟩

/-- Claim C10: per-profile failures (cluster client or leaf-cluster list) are
only logged and the profile skipped: when every profile fails or does not
match, the local `ResolveSSHInfo` returns the `errNoTCPHandler` sentinel and
never a per-profile error; only a `ListProfiles` failure itself is returned,
wrapped with the `listing profiles` context. -/
theorem resolveSSHInfo_profile_errors_skipped :
    (∀ (env : LocalEnv) (fqdn : String) (profiles : List String),
      env.listProfiles = .ok profiles →
      (∀ p ∈ profiles, ∃ e, LocalSSHProvider.clusterClientForFQDN env p fqdn = .error e) →
      LocalSSHProvider.ResolveSSHInfo env fqdn = .error .noTCPHandler ∧
      ∀ p ∈ profiles, ∀ e, LocalSSHProvider.clusterClientForFQDN env p fqdn = .error e →
        e = .noTCPHandler ∨ LocalSSHProvider.ResolveSSHInfo env fqdn ≠ .error e) ∧
    (∀ (env : LocalEnv) (fqdn : String) (e : Err),
      env.listProfiles = .error e →
      LocalSSHProvider.ResolveSSHInfo env fqdn = .error (.wrap "listing profiles" e)) := by
  constructor
  · intro env fqdn profiles hlist hall
    have hres : LocalSSHProvider.ResolveSSHInfo env fqdn = .error .noTCPHandler := by
      unfold LocalSSHProvider.ResolveSSHInfo
      rw [hlist]
      exact profileLoop_all_fail env fqdn profiles hall
    refine ⟨hres, ?_⟩
    intro p _ e _
    by_cases he : e = Err.noTCPHandler
    · exact Or.inl he
    · refine Or.inr ?_
      rw [hres]
      intro hcontra
      exact he (Except.error.inj hcontra).symm
  · intro env fqdn e hlist
    unfold LocalSSHProvider.ResolveSSHInfo
    rw [hlist]

/-- Witness for C10: a skipped logged-out profile yields the sentinel, and a
failing `ListProfiles` yields the wrapped listing error. -/
theorem resolveSSHInfo_profile_errors_skipped_witness :
    loggedOutEnv.listProfiles = .ok ["default"] ∧
    ({ loggedOutEnv with listProfiles := .error (.external "corrupt profile dir") } :
      LocalEnv).listProfiles = .error (.external "corrupt profile dir") ∧
    LocalSSHProvider.ResolveSSHInfo loggedOutEnv "host.example.com." = .error .noTCPHandler ∧
    LocalSSHProvider.ResolveSSHInfo
      { loggedOutEnv with listProfiles := .error (.external "corrupt profile dir") }
      "host.example.com." =
      .error (.wrap "listing profiles" (.external "corrupt profile dir")) :=
  ⟨rfl, rfl,
    (resolveSSHInfo_profile_errors_skipped.1 loggedOutEnv "host.example.com."
      ["default"] rfl (fun p _ => ⟨.noMatch, rfl⟩)).1,
    resolveSSHInfo_profile_errors_skipped.2
      { loggedOutEnv with listProfiles := .error (.external "corrupt profile dir") }
      "host.example.com." (.external "corrupt profile dir") rfl⟩


/-! ## Claim theorems: dial retry, resources, callback (C2, C7, C8) -/

/-- Claim C2: one `dialTargetSSH` execution (triggered by one inbound
public-key attempt) makes at most two outbound SSH handshake attempts, in
every environment; when every handshake fails, it returns a terminal error,
and when additionally both config issuances and the fresh TCP redial succeed
it makes exactly the initial attempt plus the one retry attempt — never a
third. -/
theorem dialTargetSSH_retries_exactly_once (Cfg : Type) (env : DialEnv Cfg)
    (tcpConn : Nat) :
    (dialTargetSSH env tcpConn).2 ≤ 2 ∧
    ((∀ conn cfg, ∃ e, env.newClientConn conn cfg = .error e) →
      (∃ e, (dialTargetSSH env tcpConn).1 = .error e) ∧
      ((∃ c, env.userSSHConfigInitial = .ok c) →
       (∃ c, env.userSSHConfigFresh = .ok c) →
       (∃ t, env.dialTargetTCPRetry = .ok t) →
       (dialTargetSSH env tcpConn).2 = 2)) := by
  obtain ⟨ci, cf, tr, hs⟩ := env
  rcases ci with e₁ | c₁
  · refine ⟨by simp [dialTargetSSH], fun _ => ⟨⟨.wrap "getting user SSH client config" e₁,
      by simp [dialTargetSSH]⟩, ?_⟩⟩
    rintro ⟨c, hc⟩ _ _
    cases hc
  · rcases h1 : hs tcpConn c₁ with e₂ | cl
    · rcases cf with e₃ | c₂
      · refine ⟨by simp [dialTargetSSH, retryDialTargetSSH, h1], fun _ =>
          ⟨⟨.wrap "getting fresh SSH client config" e₃,
            by simp [dialTargetSSH, retryDialTargetSSH, h1]⟩, ?_⟩⟩
        rintro _ ⟨c, hc⟩ _
        cases hc
      · rcases tr with e₄ | t
        · refine ⟨by simp [dialTargetSSH, retryDialTargetSSH, h1], fun _ =>
            ⟨⟨.wrap "redialing target with fresh SSH cert" e₄,
              by simp [dialTargetSSH, retryDialTargetSSH, h1]⟩, ?_⟩⟩
          rintro _ _ ⟨x, hx⟩
          cases hx
        · rcases h2 : hs t c₂ with e₅ | cl₂
          · exact ⟨by simp [dialTargetSSH, retryDialTargetSSH, h1, h2], fun _ =>
              ⟨⟨.wrap "dialing target SSH node with fresh user cert" e₅,
                by simp [dialTargetSSH, retryDialTargetSSH, h1, h2]⟩,
               fun _ _ _ => by simp [dialTargetSSH, retryDialTargetSSH, h1, h2]⟩⟩
          · refine ⟨by simp [dialTargetSSH, retryDialTargetSSH, h1, h2], fun hall => ?_⟩
            obtain ⟨e, he⟩ := hall t c₂
            dsimp only at he
            rw [h2] at he
            cases he
    · exact ⟨by simp [dialTargetSSH, h1], fun hall => by
        obtain ⟨e, he⟩ := hall tcpConn c₁
        dsimp only at he
        rw [h1] at he
        cases he⟩

/-- Witness for C2: every handshake rejects the credential; both issuances
and the TCP redial succeed; exactly two attempts are made and the wrapped
handshake error is returned. -/
theorem dialTargetSSH_retries_exactly_once_witness :
    ((dialTargetSSH (⟨.ok 1, .ok 2, .ok 55,
        fun _ _ => .error (.external "auth failed")⟩ : DialEnv Nat) 44).2 ≤ 2 ∧
      (∃ e, (dialTargetSSH (⟨.ok 1, .ok 2, .ok 55,
        fun _ _ => .error (.external "auth failed")⟩ : DialEnv Nat) 44).1 = .error e) ∧
      (dialTargetSSH (⟨.ok 1, .ok 2, .ok 55,
        fun _ _ => .error (.external "auth failed")⟩ : DialEnv Nat) 44).2 = 2) :=
  have h := dialTargetSSH_retries_exactly_once Nat
    ⟨.ok 1, .ok 2, .ok 55, fun _ _ => .error (.external "auth failed")⟩ 44
  have h2 := h.2 (fun _ _ => ⟨.external "auth failed", rfl⟩)
  ⟨h.1, h2.1, h2.2 ⟨1, rfl⟩ ⟨2, rfl⟩ ⟨55, rfl⟩⟩

/-- Claim C7: on every exit path of `handleTCPConnector` — initial TCP dial
failure, connector failure, inbound handshake failure (with or without an
established outbound client), and post-bridge close — every resource opened
during the attempt, including a fresh TCP connection dialed by
`retryDialTargetSSH`, reaches the closed state exactly once: it receives at
least one `Close`, it can never leave the closed state, and at most one
further `Close` call arrives, which hits an already-closed connection and is
a no-op returning an error, not a panic. -/
theorem handleTCPConnector_resources_closed
    (b₁ b₂ b₃ b₄ b₅ b₆ b₇ b₈ b₉ : Bool) (proxyResult : Option Err) :
    (handleTCPConnector ⟨b₁, b₂, b₃, b₄, b₅, b₆, b₇, b₈, b₉, proxyResult⟩).targetTCP.closedOnce = true ∧
    (handleTCPConnector ⟨b₁, b₂, b₃, b₄, b₅, b₆, b₇, b₈, b₉, proxyResult⟩).freshTCP.closedOnce = true ∧
    (handleTCPConnector ⟨b₁, b₂, b₃, b₄, b₅, b₆, b₇, b₈, b₉, proxyResult⟩).localConn.closedOnce = true ∧
    (handleTCPConnector ⟨b₁, b₂, b₃, b₄, b₅, b₆, b₇, b₈, b₉, proxyResult⟩).serverConn.closedOnce = true ∧
    (handleTCPConnector ⟨b₁, b₂, b₃, b₄, b₅, b₆, b₇, b₈, b₉, proxyResult⟩).targetClient.closedOnce = true := by
  cases b₁ <;> cases b₂ <;> cases b₃ <;> cases b₄ <;> cases b₅ <;> cases b₆ <;>
    cases b₇ <;> cases b₈ <;> cases b₉ <;>
    exact ⟨rfl, rfl, rfl, rfl, rfl⟩

/-- Claim C8: each invocation of the public-key callback dials the target as
the presented username; exactly when the dial fails it sends an
authentication banner carrying the wrapped error's text, sleeps 500ms, and
rejects the key by returning that error; when the dial succeeds it accepts
(nil error) with no banner and no delay; and the outcome never depends on the
offered key material. -/
theorem publicKeyCallback_banner_delay_reject {Key Client : Type}
    (dial : String → Except Err Client) (connUser : String) (key : Key) :
    (publicKeyCallback dial connUser key).dialedUser = connUser ∧
    (∀ e, dial connUser = .error e →
      publicKeyCallback dial connUser key =
        { dialedUser := connUser
          banner := some (errText (.wrap "dialing target node" e))
          delayMs := 500
          decision := some (.wrap "dialing target node" e) }) ∧
    (∀ c, dial connUser = .ok c →
      publicKeyCallback dial connUser key =
        { dialedUser := connUser, banner := none, delayMs := 0, decision := none }) ∧
    (∀ key₂ : Key, publicKeyCallback dial connUser key =
      publicKeyCallback dial connUser key₂) := by
  refine ⟨?_, ?_, ?_, ?_⟩
  · unfold publicKeyCallback
    rcases dial connUser with e | c <;> rfl
  · intro e he
    unfold publicKeyCallback
    rw [he]
  · intro c hc
    unfold publicKeyCallback
    rw [hc]
  · intro key₂
    unfold publicKeyCallback
    rcases dial connUser with e | c <;> rfl

/-- Witness for C8 at concrete dial outcomes: a failing dial produces the
banner, the 500ms delay and the rejection; a succeeding dial accepts. -/
theorem publicKeyCallback_banner_delay_reject_witness :
    ((fun _ => .error (.external "unreachable") : String → Except Err Nat) "alice" =
      .error (.external "unreachable")) ∧
    publicKeyCallback (fun _ => .error (.external "unreachable") :
        String → Except Err Nat) "alice" (3 : Nat) =
      { dialedUser := "alice"
        banner := some (errText (.wrap "dialing target node" (.external "unreachable")))
        delayMs := 500
        decision := some (.wrap "dialing target node" (.external "unreachable")) } ∧
    publicKeyCallback (fun _ => .ok 9 : String → Except Err Nat) "alice" (3 : Nat) =
      { dialedUser := "alice", banner := none, delayMs := 0, decision := none } :=
  ⟨rfl,
    (publicKeyCallback_banner_delay_reject
      (fun _ => .error (.external "unreachable")) "alice" 3).2.1
      (.external "unreachable") rfl,
    (publicKeyCallback_banner_delay_reject
      (fun _ => .ok 9) "alice" 3).2.2.1 9 rfl⟩


/-! ## Claim theorems: the config cache machine (C1, C5, C6, C9) -/

/-- Claim C1 (amended): for any number `n > 0` of concurrent `userSSHConfig`
callers for the same username over an initially empty cache, under any
schedule, WHEN THE UPSTREAM ISSUANCE SUCCEEDS the provider's `UserSSHConfig`
is invoked exactly once and every caller that finishes returns that one
identical config.  (The original claim also asserted this for failing
issuance; `userSSHConfig_single_flight_error_counterexample` refutes that
part: a failed flight caches nothing, so a concurrent caller whose `fg.Do`
begins after the failed flight completes starts a new flight, and the
upstream can be invoked up to once per caller, with different errors.) -/
theorem userSSHConfig_single_flight (Cfg : Type) (u : String) (c₀ : Cfg)
    (upstream : Nat → Except Err Cfg) (H0 : upstream 0 = .ok c₀)
    (n : Nat) (hn : 0 < n) (sched : List Nat)
    (hdone : ∀ i, i < n →
      ((runSched upstream sched (initCallers Cfg u n)).threads i).pc.isDone = true) :
    (runSched upstream sched (initCallers Cfg u n)).calls = 1 ∧
    ∀ i, i < n → ((runSched upstream sched (initCallers Cfg u n)).threads i).pc =
      .done (.ok c₀) := by
  have hinv : InvC1 u c₀ (runSched upstream sched (initCallers Cfg u n)) :=
    InvC1.runPres H0 sched (InvC1.init u c₀ n)
  have hres : ∀ i, i < n →
      ((runSched upstream sched (initCallers Cfg u n)).threads i).pc = .done (.ok c₀) := by
    intro i hi
    obtain ⟨res, hres⟩ := (TPc.isDone_iff _).mp (hdone i hi)
    rw [hres, (hinv.doneInv i res hres).1]
  refine ⟨?_, hres⟩
  obtain ⟨res0, h0⟩ := (TPc.isDone_iff _).mp (hdone 0 hn)
  have hcache := (hinv.doneInv 0 res0 h0).2
  have hne : (runSched upstream sched (initCallers Cfg u n)).calls ≠ 0 := by
    intro hz
    have := (hinv.callsZeroIff.mp hz).1
    rw [hcache] at this
    cases this
  have hle := hinv.callsLe
  omega

/-- Witness for C1 (amended) at two callers: thread 0 runs the whole slow
path, thread 1 then takes the fast path; both finish with the one issued
config and the upstream was called exactly once. -/
theorem userSSHConfig_single_flight_witness :
    ((fun _ => Except.ok 7 : Nat → Except Err Nat) 0 = Except.ok 7) ∧ 0 < 2 ∧
    (∀ i, i < 2 → ((runSched (fun _ => Except.ok 7) [0, 0, 0, 0, 0, 0, 0, 0, 1]
      (initCallers Nat "a" 2)).threads i).pc.isDone = true) ∧
    ((runSched (fun _ => Except.ok 7) [0, 0, 0, 0, 0, 0, 0, 0, 1]
        (initCallers Nat "a" 2)).calls = 1 ∧
      ∀ i, i < 2 → ((runSched (fun _ => Except.ok 7) [0, 0, 0, 0, 0, 0, 0, 0, 1]
        (initCallers Nat "a" 2)).threads i).pc = .done (.ok 7)) :=
  ⟨rfl, by decide, by decide,
    userSSHConfig_single_flight Nat "a" 7 (fun _ => Except.ok 7) rfl 2 (by decide)
      [0, 0, 0, 0, 0, 0, 0, 0, 1] (by decide)⟩

/-- Counterexample to claim C1 as stated: two concurrent callers for the same
username over an empty cache, with an upstream that fails every issuance.
Thread 1 performs its fast-path load (a step of its invocation) before
thread 0 finishes, so the two invocations overlap in time; yet thread 1
enters `fg.Do` only after thread 0's failed flight completed and was
removed, so it becomes a new leader: the upstream is invoked twice — not
exactly once — and the two callers return different errors — not the
identical error. -/
theorem userSSHConfig_single_flight_error_counterexample :
    (runSched failingUpstream [1, 0, 0, 0, 0, 0, 0, 1, 1, 1, 1, 1]
      (initCallers Nat "a" 2)).calls = 2 ∧
    ((runSched failingUpstream [1, 0, 0, 0, 0, 0, 0, 1, 1, 1, 1, 1]
      (initCallers Nat "a" 2)).threads 0).pc =
      .done (.error (.wrap "getting user SSH client config" (.external "0"))) ∧
    ((runSched failingUpstream [1, 0, 0, 0, 0, 0, 0, 1, 1, 1, 1, 1]
      (initCallers Nat "a" 2)).threads 1).pc =
      .done (.error (.wrap "getting user SSH client config" (.external "1"))) := by
  refine ⟨by decide, by decide, by decide⟩


/-- Claim C5: for every username, after the `sshClientConfig.Delete` of
`retryDialTargetSSH` removes the stale cached config, a subsequent
`userSSHConfig` call does not return the stale pre-invalidation config: it
invokes the upstream issuance again (one new call) and returns the freshly
issued config. -/
theorem userSSHConfig_reissues_after_invalidation (Cfg : Type) (u : String)
    (stale fresh : Cfg) (upstream : Nat → Except Err Cfg)
    (H0 : upstream 0 = .ok fresh) :
    ((runSched upstream [0, 1, 1, 1, 1, 1, 1, 1, 1] (initStale Cfg u stale)).threads 1).pc =
      .done (.ok fresh) ∧
    (runSched upstream [0, 1, 1, 1, 1, 1, 1, 1, 1] (initStale Cfg u stale)).calls = 1 ∧
    (stale ≠ fresh →
      ((runSched upstream [0, 1, 1, 1, 1, 1, 1, 1, 1] (initStale Cfg u stale)).threads 1).pc ≠
        .done (.ok stale)) := by
  have heval : ((runSched upstream [0, 1, 1, 1, 1, 1, 1, 1, 1]
      (initStale Cfg u stale)).threads 1).pc = .done (.ok fresh) ∧
      (runSched upstream [0, 1, 1, 1, 1, 1, 1, 1, 1] (initStale Cfg u stale)).calls = 1 := by
    simp [runSched, stepThread, initStale, setPc, wake, H0]
  refine ⟨heval.1, heval.2, ?_⟩
  intro hne hcontra
  rw [heval.1] at hcontra
  have := Except.ok.inj (TPc.done.inj hcontra)
  exact hne this.symm

/-- Witness for C5: delete then re-issue with concrete configs 9 (stale) and
7 (fresh); the caller gets 7 via one new upstream call. -/
theorem userSSHConfig_reissues_after_invalidation_witness :
    ((fun _ => Except.ok 7 : Nat → Except Err Nat) 0 = Except.ok 7) ∧
    (((runSched (fun _ => Except.ok 7) [0, 1, 1, 1, 1, 1, 1, 1, 1]
        (initStale Nat "a" 9)).threads 1).pc = .done (.ok 7) ∧
      (runSched (fun _ => Except.ok 7) [0, 1, 1, 1, 1, 1, 1, 1, 1]
        (initStale Nat "a" 9)).calls = 1 ∧
      ((9 : Nat) ≠ 7 →
        ((runSched (fun _ => Except.ok 7) [0, 1, 1, 1, 1, 1, 1, 1, 1]
          (initStale Nat "a" 9)).threads 1).pc ≠ .done (.ok 9))) :=
  ⟨rfl, userSSHConfig_reissues_after_invalidation Nat "a" 9 7 (fun _ => Except.ok 7) rfl⟩

/-- Helper for C6: along any schedule, every config present in the cache was
returned by some successful upstream issuance — `Store` happens only with the
`c` obtained from a succeeding `UserSSHConfig` call (line 217 under the
`err != nil` check of line 214), and `Delete` only removes entries. -/
theorem stored_configs_issued {Cfg : Type} (upstream : Nat → Except Err Cfg) :
    ∀ (sched : List Nat) (s : MState Cfg),
      (∀ j c, (s.threads j).pc = .storeCfg c → ∃ k, upstream k = .ok c) →
      (∀ x c, s.cache x = some c → ∃ k, upstream k = .ok c) →
      (∀ x c, (runSched upstream sched s).cache x = some c → ∃ k, upstream k = .ok c) := by
  have hset : ∀ (s : MState Cfg) (i : Nat) (p : TPc Cfg),
      (∀ j c, (s.threads j).pc = .storeCfg c → ∃ k, upstream k = .ok c) →
      (∀ c', p = .storeCfg c' → ∃ k, upstream k = .ok c') →
      (∀ j c, ((setPc s i p).threads j).pc = .storeCfg c → ∃ k, upstream k = .ok c) := by
    intro s i p h1 hp j c hj
    by_cases hji : j = i
    · subst hji; rw [setPc_pc_self] at hj; exact hp c hj
    · rw [setPc_other s p hji] at hj; exact h1 j c hj
  have hstep : ∀ (s : MState Cfg) (i : Nat),
      (∀ j c, (s.threads j).pc = .storeCfg c → ∃ k, upstream k = .ok c) →
      (∀ x c, s.cache x = some c → ∃ k, upstream k = .ok c) →
      (∀ j c, ((stepThread upstream i s).threads j).pc = .storeCfg c →
        ∃ k, upstream k = .ok c) ∧
      (∀ x c, (stepThread upstream i s).cache x = some c → ∃ k, upstream k = .ok c) := by
    intro s i h1 h2
    rcases hpc : (s.threads i).pc with _ | _ | _ | _ | c | r | _ | r | _ | res | _ | _ | _ | _
    · rcases hc : s.cache (s.threads i).user with _ | c2
      · have he : stepThread upstream i s = setPc s i .doEnter := by
          simp only [stepThread, hpc, hc]
        rw [he]
        exact ⟨hset s i _ h1 (fun c' hx => by cases hx), h2⟩
      · have he : stepThread upstream i s = setPc s i (.done (.ok c2)) := by
          simp only [stepThread, hpc, hc]
        rw [he]
        exact ⟨hset s i _ h1 (fun c' hx => by cases hx), h2⟩
    · by_cases hf : s.flight (s.threads i).user = true
      · have he : stepThread upstream i s = setPc s i .waiting := by
          simp only [stepThread, hpc, hf, if_true]
        rw [he]
        exact ⟨hset s i _ h1 (fun c' hx => by cases hx), h2⟩
      · have hf' : s.flight (s.threads i).user = false := by
          cases hb : s.flight (s.threads i).user
          · rfl
          · exact absurd hb hf
        have he : stepThread upstream i s = { setPc s i .doubleCheck with
            flight := fun x => if x = (s.threads i).user then true else s.flight x } := by
          simp only [stepThread, hpc, hf', Bool.false_eq_true, if_false]
        rw [he]
        exact ⟨hset s i _ h1 (fun c' hx => by cases hx), h2⟩
    · rcases hc : s.cache (s.threads i).user with _ | c2
      · have he : stepThread upstream i s = setPc s i .upstreamCall := by
          simp only [stepThread, hpc, hc]
        rw [he]
        exact ⟨hset s i _ h1 (fun c' hx => by cases hx), h2⟩
      · have he : stepThread upstream i s = setPc s i (.completeFlight none) := by
          simp only [stepThread, hpc, hc]
        rw [he]
        exact ⟨hset s i _ h1 (fun c' hx => by cases hx), h2⟩
    · rcases hck : upstream s.calls with e | c
      · have he : stepThread upstream i s = { setPc s i
            (.completeFlight (some (.wrap "getting user SSH client config" e))) with
            calls := s.calls + 1 } := by
          simp only [stepThread, hpc, hck]
        rw [he]
        exact ⟨hset s i _ h1 (fun c' hx => by cases hx), h2⟩
      · have he : stepThread upstream i s = { setPc s i (.storeCfg c) with
            calls := s.calls + 1 } := by
          simp only [stepThread, hpc, hck]
        rw [he]
        refine ⟨hset s i _ h1 ?_, h2⟩
        intro c' hx
        obtain rfl := TPc.storeCfg.inj hx
        exact ⟨s.calls, hck⟩
    · have he : stepThread upstream i s = { setPc s i (.completeFlight none) with
          cache := fun x => if x = (s.threads i).user then some c else s.cache x } := by
        simp only [stepThread, hpc]
      rw [he]
      refine ⟨hset s i _ h1 (fun c' hx => by cases hx), ?_⟩
      intro x c' hx
      dsimp only at hx
      by_cases hxu : x = (s.threads i).user
      · rw [if_pos hxu] at hx
        obtain rfl := Option.some.inj hx
        exact h1 i _ hpc
      · rw [if_neg hxu] at hx
        exact h2 x c' hx
    · have he : stepThread upstream i s = { s with
          threads := fun j => if j = i then ⟨(s.threads i).user, .afterDo r⟩
            else wake (s.threads i).user r (s.threads j)
          flight := fun x => if x = (s.threads i).user then false else s.flight x } := by
        simp only [stepThread, hpc]
      rw [he]
      refine ⟨?_, h2⟩
      intro j c hj
      dsimp only at hj
      by_cases hji : j = i
      · rw [if_pos hji] at hj; cases hj
      · rw [if_neg hji] at hj
        rcases wake_pc (s.threads i).user r (s.threads j) with hsame | ⟨hwait, hafter⟩
        · rw [hsame] at hj; exact h1 j c hj
        · rw [hafter] at hj; cases hj
    · have he : stepThread upstream i s = s := by simp only [stepThread, hpc]
      rw [he]; exact ⟨h1, h2⟩
    · rcases r with _ | e
      · have he : stepThread upstream i s = setPc s i .finalLoad := by
          simp only [stepThread, hpc]
        rw [he]
        exact ⟨hset s i _ h1 (fun c' hx => by cases hx), h2⟩
      · have he : stepThread upstream i s = setPc s i (.done (.error e)) := by
          simp only [stepThread, hpc]
        rw [he]
        exact ⟨hset s i _ h1 (fun c' hx => by cases hx), h2⟩
    · rcases hc : s.cache (s.threads i).user with _ | c2
      · have he : stepThread upstream i s = setPc s i .panicked := by
          simp only [stepThread, hpc, hc]
        rw [he]
        exact ⟨hset s i _ h1 (fun c' hx => by cases hx), h2⟩
      · have he : stepThread upstream i s = setPc s i (.done (.ok c2)) := by
          simp only [stepThread, hpc, hc]
        rw [he]
        exact ⟨hset s i _ h1 (fun c' hx => by cases hx), h2⟩
    · have he : stepThread upstream i s = s := by simp only [stepThread, hpc]
      rw [he]; exact ⟨h1, h2⟩
    · have he : stepThread upstream i s = s := by simp only [stepThread, hpc]
      rw [he]; exact ⟨h1, h2⟩
    · have he : stepThread upstream i s = { setPc s i .delDone with
          cache := fun x => if x = (s.threads i).user then none else s.cache x } := by
        simp only [stepThread, hpc]
      rw [he]
      refine ⟨hset s i _ h1 (fun c' hx => by cases hx), ?_⟩
      intro x c' hx
      dsimp only at hx
      by_cases hxu : x = (s.threads i).user
      · rw [if_pos hxu] at hx; cases hx
      · rw [if_neg hxu] at hx; exact h2 x c' hx
    · have he : stepThread upstream i s = s := by simp only [stepThread, hpc]
      rw [he]; exact ⟨h1, h2⟩
    · have he : stepThread upstream i s = s := by simp only [stepThread, hpc]
      rw [he]; exact ⟨h1, h2⟩
  intro sched
  induction sched with
  | nil => intro s _ h2; exact h2
  | cons i rest ih =>
    intro s h1 h2
    exact ih (stepThread upstream i s) (hstep s i h1 h2).1 (hstep s i h1 h2).2

/-- Claim C6: entries stored in the per-username config map are exactly
configs returned by a successful upstream issuance — a reader never observes
a nil or partial entry (a stored value is a complete issued config by
construction, and `sync.Map` operations are atomic); and when the issuance
fails, nothing is stored: the cache entry for the username stays absent and
the caller gets the wrapped issuance error. -/
theorem userSSHConfig_no_store_on_failure (Cfg : Type) (u : String)
    (upstream : Nat → Except Err Cfg) :
    (∀ (n : Nat) (sched : List Nat) (x : String) (c : Cfg),
      (runSched upstream sched (initCallers Cfg u n)).cache x = some c →
      ∃ k, upstream k = .ok c) ∧
    (∀ e : Err, upstream 0 = .error e →
      (runSched upstream [0, 0, 0, 0, 0, 0] (initCallers Cfg u 1)).cache u = none ∧
      ((runSched upstream [0, 0, 0, 0, 0, 0] (initCallers Cfg u 1)).threads 0).pc =
        .done (.error (.wrap "getting user SSH client config" e))) := by
  constructor
  · intro n sched x c hx
    refine stored_configs_issued upstream sched (initCallers Cfg u n) ?_ ?_ x c hx
    · intro j c' hj
      by_cases hjn : j < n <;> simp [initCallers, hjn] at hj
    · intro x' c' hx'
      simp [initCallers] at hx'
  · intro e H0
    simp [runSched, stepThread, initCallers, setPc, wake, H0]

/-- Witness for C6: a failing upstream stores nothing for the username and
the caller returns the wrapped issuance error. -/
theorem userSSHConfig_no_store_on_failure_witness :
    failingUpstream 0 = .error (.external "0") ∧
    ((runSched failingUpstream [0, 0, 0, 0, 0, 0] (initCallers Nat "a" 1)).cache "a" = none ∧
      ((runSched failingUpstream [0, 0, 0, 0, 0, 0] (initCallers Nat "a" 1)).threads 0).pc =
        .done (.error (.wrap "getting user SSH client config" (.external "0")))) :=
  ⟨rfl, (userSSHConfig_no_store_on_failure Nat "a" failingUpstream).2 (.external "0") rfl⟩

/-- Claim C9: when the singleflight call completes without error but the
cache entry is gone at the final re-read — here because a concurrent
`retryDialTargetSSH` ran its `Delete` between the store and the final load —
`userSSHConfig` does not return an error: the `if !ok` branch after the final
load is empty, execution falls through to the type assertion
`c.(*ssh.ClientConfig)` on the nil interface value, and the goroutine
panics (`panicked` in the machine). -/
theorem userSSHConfig_panics_on_concurrent_delete (Cfg : Type) (u : String)
    (c : Cfg) (upstream : Nat → Except Err Cfg) (H0 : upstream 0 = .ok c) :
    ((runSched upstream [0, 0, 0, 0, 0, 0, 0, 1, 0]
      (initWithDeleter Cfg u)).threads 0).pc = .panicked := by
  simp [runSched, stepThread, initWithDeleter, setPc, wake, H0]

/-- Witness for C9 at a concrete username, config and schedule. -/
theorem userSSHConfig_panics_on_concurrent_delete_witness :
    ((fun _ => Except.ok 7 : Nat → Except Err Nat) 0 = Except.ok 7) ∧
    ((runSched (fun _ => Except.ok 7) [0, 0, 0, 0, 0, 0, 0, 1, 0]
      (initWithDeleter Nat "a")).threads 0).pc = .panicked :=
  ⟨rfl, userSSHConfig_panics_on_concurrent_delete Nat "a" 7 (fun _ => Except.ok 7) rfl⟩


end VnetSSH
